import Mathlib

/-!
Verification of the freya streaming compression tool.

The definitions below are a shallow embedding of the Rust sources:
  * `CompressionLevel`, `CompressMessage`   — src/lib.rs
  * `startCompression`, `startDecompression` — src/compression.rs
  * `App`, `handleKeyEvent`, `checkCompressionProgress`, `handleEvents`
                                             — src/app.rs
Machine integers (`u64`) are modelled as `Nat`; the `f64` progress
fraction is modelled as `Rat` (all operations performed on it are exact
divisions, comparisons and the constants 0 and 1).  File-system and
channel effects are made explicit: an environment record supplies the
results of the fallible I/O calls, and a run of a worker thread is the
list of messages it sends on its channel.
-/

namespace Freya

/-! ### CompressionLevel (src/lib.rs) -/

/-- The three compression presets exposed to the user (src/lib.rs). -/
inductive CompressionLevel
  | Fast
  | Normal
  | Best
deriving DecidableEq, Repr

/-- The zstd integer level to pass to the encoder (src/lib.rs `zstd_level`). -/
def CompressionLevel.zstdLevel : CompressionLevel → Int
  | .Fast => 1
  | .Normal => 3
  | .Best => 19

/-- Human-readable label shown in the UI (src/lib.rs `label`). -/
def CompressionLevel.label : CompressionLevel → String
  | .Fast => "Fast"
  | .Normal => "Normal"
  | .Best => "Best"

/-- Cycle upward toward Best, saturating (src/lib.rs `increase`). -/
def CompressionLevel.increase : CompressionLevel → CompressionLevel
  | .Fast => .Normal
  | .Normal => .Best
  | .Best => .Best

/-- Cycle downward toward Fast, saturating (src/lib.rs `decrease`). -/
def CompressionLevel.decrease : CompressionLevel → CompressionLevel
  | .Fast => .Fast
  | .Normal => .Fast
  | .Best => .Normal

/-! ### Channel messages (src/lib.rs `CompressMessage`) -/

/-- Messages sent from a worker thread to the controller (src/lib.rs). -/
inductive CompressMessage
  | Progress (bytes_processed : Nat) (total_bytes : Nat)
  | Finished (original_size : Nat) (compressed_size : Nat) (output_path : String)
  | Error (message : String)
deriving DecidableEq, Repr

/-- True exactly on `Progress` messages. -/
def CompressMessage.isProgress : CompressMessage → Bool
  | .Progress _ _ => true
  | _ => false

/-- True exactly on the terminal messages `Finished` and `Error`. -/
def CompressMessage.isTerminal : CompressMessage → Bool
  | .Finished _ _ _ => true
  | .Error _ => true
  | _ => false

/-- The `bytes_processed` fields of the `Progress` messages of a stream,
in order. -/
def progressBytes (l : List CompressMessage) : List Nat :=
  l.filterMap fun m =>
    match m with
    | .Progress bp _ => some bp
    | _ => none

/-! ### Transform engine (src/compression.rs)

Both worker loops read a sequence of chunks (`read` results), stop at the
first zero-length read, and send one `Progress` message per non-empty
chunk.  The environment records supply the input file size reported by
`metadata()`, the sizes returned by the successive `read` calls, and the
points at which the fallible I/O operations fail.  A `loopErr i = some e`
means the `read`/`write_all` pair of loop iteration `i` fails with `e`
(in the source the `?` operator aborts the iteration before its
`Progress` message is sent). -/

/-- Environment of one `start_compression` run (src/compression.rs). -/
structure CompressEnv where
  /-- `input_file.metadata()?.len()` — the input file size. -/
  inputSize : Nat
  /-- Sizes returned by the successive `input_file.read(&mut buffer)` calls. -/
  readChunks : List Nat
  /-- Failure of `File::open` / `metadata` / `File::create`, before the encoder. -/
  openErr : Option String
  /-- Failure of `zstd::stream::Encoder::new`. -/
  encoderErr : Option String
  /-- Failure of the `read`/`write_all` pair at loop iteration `i`. -/
  loopErr : Nat → Option String
  /-- Failure of `encoder.finish()` / output `metadata`. -/
  finishErr : Option String
  /-- `output_file.metadata()?.len()` after `finish()` — the compressed size. -/
  compressedSize : Nat

/-- The compression copy loop of src/compression.rs lines 21–32: returns
the `Progress` messages sent and either the final `bytes_processed` or
the first I/O error. -/
def compressLoop (loopErr : Nat → Option String) (total : Nat) :
    List Nat → Nat → Nat → List CompressMessage × Except String Nat
  | [], bp, _ => ([], Except.ok bp)
  | c :: cs, bp, i =>
    match loopErr i with
    | some e => ([], Except.error e)
    | none =>
      if c = 0 then
        ([], Except.ok bp)
      else
        let r := compressLoop loopErr total cs (bp + c) (i + 1)
        (CompressMessage.Progress (bp + c) total :: r.1, r.2)

/-- The `run` closure of `start_compression`: the `Progress` messages sent
and the closure's `std::io::Result<(u64, u64, String)>`. -/
def compressRunOutcome (outputPath : String) (env : CompressEnv) :
    List CompressMessage × Except String (Nat × Nat × String) :=
  match env.openErr with
  | some e => ([], Except.error e)
  | none =>
    match env.encoderErr with
    | some e => ([], Except.error e)
    | none =>
      let r := compressLoop env.loopErr env.inputSize env.readChunks 0 0
      match r.2 with
      | Except.error e => (r.1, Except.error e)
      | Except.ok _ =>
        match env.finishErr with
        | some e => (r.1, Except.error e)
        | none => (r.1, Except.ok (env.inputSize, env.compressedSize, outputPath))

/-- The terminal message the worker sends from the `match run()` at the end
of either worker body (src/compression.rs lines 39–50 and 91–102). -/
def terminalFor : Except String (Nat × Nat × String) → CompressMessage
  | Except.ok (o, c, p) => CompressMessage.Finished o c p
  | Except.error e => CompressMessage.Error e

/-- Result of one `start_compression` worker: the level handed to
`Encoder::new` (when execution reaches it) and the message stream sent. -/
structure CompressRun where
  encoderLevel : Option Int
  messages : List CompressMessage
deriving DecidableEq, Repr

/-- `start_compression` (src/compression.rs lines 6–52).  The function
takes no `CompressionLevel`: line 17 constructs the encoder as
`zstd::stream::Encoder::new(output_file, 3)` with the constant 3. -/
def startCompression (_inputPath outputPath : String) (env : CompressEnv) :
    CompressRun :=
  let r := compressRunOutcome outputPath env
  { encoderLevel := if env.openErr.isSome then none else some 3
    messages := r.1 ++ [terminalFor r.2] }

/-- Environment of one `start_decompression` run (src/compression.rs). -/
structure DecompressEnv where
  /-- `input_file.metadata()?.len()` — the compressed input file size. -/
  compressedSize : Nat
  /-- Sizes returned by the successive `decoder.read(&mut buffer)` calls:
  counts of decompressed bytes produced, not compressed bytes consumed. -/
  decodedChunks : List Nat
  /-- Failure of `File::open` / `metadata` / `Decoder::new` / `File::create`. -/
  openErr : Option String
  /-- Failure of the `read`/`write_all` pair at loop iteration `i`. -/
  loopErr : Nat → Option String

/-- The decompression copy loop of src/compression.rs lines 73–84. -/
def decompressLoop (loopErr : Nat → Option String) (total : Nat) :
    List Nat → Nat → Nat → List CompressMessage × Except String Nat
  | [], bp, _ => ([], Except.ok bp)
  | c :: cs, bp, i =>
    match loopErr i with
    | some e => ([], Except.error e)
    | none =>
      if c = 0 then
        ([], Except.ok bp)
      else
        let r := decompressLoop loopErr total cs (bp + c) (i + 1)
        (CompressMessage.Progress (bp + c) total :: r.1, r.2)

/-- The `run` closure of `start_decompression`: on success it returns
`(compressed_size, bytes_processed, output_path)` — compressed size first,
decompressed byte count second (src/compression.rs line 88). -/
def decompressRunOutcome (outputPath : String) (env : DecompressEnv) :
    List CompressMessage × Except String (Nat × Nat × String) :=
  match env.openErr with
  | some e => ([], Except.error e)
  | none =>
    let r := decompressLoop env.loopErr env.compressedSize env.decodedChunks 0 0
    match r.2 with
    | Except.error e => (r.1, Except.error e)
    | Except.ok bp => (r.1, Except.ok (env.compressedSize, bp, outputPath))

/-- `start_decompression` (src/compression.rs lines 56–104): the message
stream sent by the worker. -/
def startDecompression (_inputPath outputPath : String) (env : DecompressEnv) :
    List CompressMessage :=
  let r := decompressRunOutcome outputPath env
  r.1 ++ [terminalFor r.2]

/-! ### Paths (std::path::PathBuf as used by src/app.rs)

The controller only manipulates a path's final component: it reads and
replaces the extension and formats the file name.  A path is modelled as
a stem plus an optional extension. -/

/-- A file path, reduced to the final component's stem and extension. -/
structure FreyaPath where
  stem : String
  ext : Option String
deriving DecidableEq, Repr

/-- `path.extension().unwrap_or_default()` as a string. -/
def FreyaPath.extensionStr (p : FreyaPath) : String :=
  p.ext.getD ""

/-- `path.set_extension(e)`: the empty string removes the extension. -/
def FreyaPath.setExtension (p : FreyaPath) (e : String) : FreyaPath :=
  { p with ext := if e = "" then none else some e }

/-- `path.file_name()` rendered as a string. -/
def FreyaPath.fileName (p : FreyaPath) : String :=
  p.stem ++ (match p.ext with
    | some e => "." ++ e
    | none => "")

/-- `format!("{:?}", path.file_name().unwrap_or_default())` — the Debug
rendering used in the status messages wraps the name in quotes. -/
def FreyaPath.quotedName (p : FreyaPath) : String :=
  "\"" ++ p.fileName ++ "\""

/-- `App::default_output_path` (src/app.rs lines 58–64): append ".zst" to
the existing extension. -/
def defaultOutputPath (input : FreyaPath) : FreyaPath :=
  input.setExtension (input.extensionStr ++ ".zst")

/-! ### Controller state (src/app.rs `App`) -/

/-- The controller state struct (src/app.rs lines 14–25).  The `f64`
`progress` is a `Rat`; the channel receiver is reduced to its presence;
`Instant` timestamps are milliseconds as `Nat`. -/
structure App where
  exit : Bool
  is_compressing : Bool
  is_decompressing : Bool
  progress : Rat
  status_message : String
  receiver : Option Unit
  last_compression_result : Option String
  compression_finished_at : Option Nat
  compression_level : CompressionLevel
deriving DecidableEq, Repr

/-- `App::default` (src/app.rs lines 27–41). -/
def appDefault : App :=
  { exit := false
    is_compressing := false
    is_decompressing := false
    progress := 0
    status_message := " Press 'o' to compress or 'd' to decompress a file"
    receiver := none
    last_compression_result := none
    compression_finished_at := none
    compression_level := CompressionLevel.Normal }

/-! ### Key handling (src/app.rs `handle_key_event`) -/

/-- The key codes `handle_key_event` distinguishes; `other` covers every
remaining `KeyCode`. -/
inductive KeyIn
  | q
  | up
  | down
  | d
  | s
  | o
  | other
deriving DecidableEq, Repr

/-- Results of the native file dialogs opened while handling one key
event: `picked` is the `pick_file()` result, `savePicked` the
`save_file()` result of the save dialog in the 's' branch. -/
structure PickerEnv where
  picked : Option FreyaPath
  savePicked : Option FreyaPath
deriving DecidableEq, Repr

/-- A record of one worker spawned by the controller.  The `'o'` branch
of `handle_key_event` (src/app.rs line 265) passes the current
`compression_level` to `start_compression`, while `start_compression_job`
(the `'s'` branch, src/app.rs line 79) does not — even though the
3-parameter `start_compression` in src/compression.rs accepts no level at
all. -/
inductive StartedJob
  | compress (input output : FreyaPath) (level : Option CompressionLevel)
  | decompress (input output : FreyaPath)
deriving DecidableEq, Repr

/-- The statement at the top of `handle_key_event` (src/app.rs lines
169–171): a leftover progress fraction is cleared on any key press while
no job is running. -/
def applyKeyPre (a : App) : App :=
  if a.is_compressing = false ∧ 0 < a.progress then
    { a with progress := 0 }
  else
    a

/-- `App::start_compression_job` (src/app.rs lines 67–84): shared setup
for the 'o' and 's' paths once the input and output paths are resolved. -/
def startCompressionJob (a : App) (input output : FreyaPath) :
    App × List StartedJob :=
  ({ a with receiver := some ()
            is_compressing := true
            progress := 0
            compression_finished_at := none
            status_message := " Compressing " ++ input.quotedName },
   [StartedJob.compress input output none])

/-- `App::handle_key_event` (src/app.rs lines 168–277).  Returns the new
controller state and the workers spawned. -/
def handleKeyEvent (a0 : App) (k : KeyIn) (env : PickerEnv) :
    App × List StartedJob :=
  let a := applyKeyPre a0
  match k with
  | .q => ({ a with exit := true }, [])
  | .up =>
    (if a.is_compressing then a
     else { a with compression_level := a.compression_level.decrease }, [])
  | .down =>
    (if a.is_compressing then a
     else { a with compression_level := a.compression_level.increase }, [])
  | .d =>
    match env.picked with
    | some input =>
      let output := input.setExtension ""
      ({ a with receiver := some ()
                is_compressing := true
                is_decompressing := true
                progress := 0
                compression_finished_at := none
                status_message := " Decompressing " ++ input.quotedName },
       [StartedJob.decompress input output])
    | none => (a, [])
  | .s =>
    match env.picked with
    | some input =>
      let output := env.savePicked.getD (defaultOutputPath input)
      startCompressionJob a input output
    | none => ({ a with status_message := "Not Compressing " }, [])
  | .o =>
    match env.picked with
    | some input =>
      let output := input.setExtension (input.extensionStr ++ ".zst")
      ({ a with receiver := some ()
                is_compressing := true
                progress := 0
                compression_finished_at := none
                status_message := " Compressing " ++ input.quotedName
                  ++ " [" ++ a.compression_level.label ++ "]" },
       [StartedJob.compress input output (some a.compression_level)])
    | none => ({ a with status_message := "Not Compressing " }, [])
  | .other => (a, [])

/-! ### Channel draining (src/app.rs `check_compression_progress`) -/

/-- `{:.2}` formatting of the compression percentage. -/
def twoDecimals (q : Rat) : String :=
  let cents : Int := round (q * 100)
  let whole := cents / 100
  let frac := (cents % 100).natAbs
  toString whole ++ "." ++ (if frac < 10 then "0" else "") ++ toString frac

/-- The `Finished` arm of `check_compression_progress` (src/app.rs lines
122–154); `now` stands for `Instant::now()`. -/
def finishedUpdate (a : App) (original_size compressed_size : Nat)
    (output_path : String) (now : Nat) : App :=
  let a1 := { a with is_compressing := false, progress := 1, receiver := none }
  if a1.is_decompressing then
    { a1 with
      is_decompressing := false
      status_message := " Decompression complete!"
      last_compression_result := some
        ("\nDecompression successful!\nSaved to: " ++ output_path
          ++ "\nCompressed: " ++ toString original_size
          ++ " bytes\nDecompressed: " ++ toString compressed_size ++ " bytes\n")
      compression_finished_at := some now }
  else
    let pct : Rat :=
      if 0 < original_size then
        ((compressed_size : Rat) / (original_size : Rat)) * 100
      else 0
    { a1 with
      status_message := " Compression complete!"
      last_compression_result := some
        ("\nCompression successful!\nSaved to: " ++ output_path
          ++ "\nOriginal: " ++ toString original_size
          ++ " bytes\nCompressed: " ++ toString compressed_size
          ++ " bytes (" ++ twoDecimals pct ++ "% of original)\n")
      compression_finished_at := some now }

/-- The `while let Ok(msg) = receiver.try_recv()` drain loop of
`check_compression_progress` (src/app.rs lines 112–164).  `msgs` is the
queue of pending channel messages; the terminal arms `return`, so later
queued messages are not examined (the receiver is dropped with them). -/
def drainLoop (a : App) (msgs : List CompressMessage) (now : Nat) : App :=
  match msgs with
  | [] => a
  | m :: rest =>
    match m with
    | .Progress bp tb =>
      drainLoop
        (if 0 < tb then { a with progress := (bp : Rat) / (tb : Rat) } else a)
        rest now
    | .Finished o c p => finishedUpdate a o c p now
    | .Error e =>
      { a with is_compressing := false
               is_decompressing := false
               progress := 0
               status_message := " Error: " ++ e
               receiver := none }

/-- `App::check_compression_progress` (src/app.rs lines 110–166): nothing
happens unless a receiver is held. -/
def checkCompressionProgress (a : App) (msgs : List CompressMessage)
    (now : Nat) : App :=
  match a.receiver with
  | none => a
  | some _ => drainLoop a msgs now

/-! ### The tick (src/app.rs `handle_events`) -/

/-- Input of one controller tick: the key event delivered by `poll` (if
any) with its dialog results, the channel messages queued, and the
current time in milliseconds. -/
structure TickInput where
  key : Option (KeyIn × PickerEnv)
  msgs : List CompressMessage
  now : Nat

/-- `App::handle_events` (src/app.rs lines 86–108): key dispatch, channel
drain, then the 2-second auto-exit check. -/
def handleEvents (a : App) (t : TickInput) : App × List StartedJob :=
  let r := match t.key with
    | some (k, env) => handleKeyEvent a k env
    | none => (a, [])
  let a1 := checkCompressionProgress r.1 t.msgs t.now
  let a2 := match a1.compression_finished_at with
    | some f => if 2000 ≤ t.now - f then { a1 with exit := true } else a1
    | none => a1
  (a2, r.2)

/-- The controller's main loop reduced to its state effect: fold
`handle_events` over a sequence of tick inputs. -/
def runTicks (a : App) : List TickInput → App
  | [] => a
  | t :: ts => runTicks (handleEvents a t).1 ts

/-! ### Helper lemmas -/

@[simp]
lemma progressBytes_nil : progressBytes [] = [] := rfl

@[simp]
lemma progressBytes_cons_progress (bp tb : Nat) (l : List CompressMessage) :
    progressBytes (CompressMessage.Progress bp tb :: l) = bp :: progressBytes l := rfl

@[simp]
lemma progressBytes_cons_finished (o c : Nat) (p : String) (l : List CompressMessage) :
    progressBytes (CompressMessage.Finished o c p :: l) = progressBytes l := rfl

@[simp]
lemma progressBytes_cons_error (e : String) (l : List CompressMessage) :
    progressBytes (CompressMessage.Error e :: l) = progressBytes l := rfl

@[simp]
lemma progressBytes_append (l1 l2 : List CompressMessage) :
    progressBytes (l1 ++ l2) = progressBytes l1 ++ progressBytes l2 :=
  List.filterMap_append l1 l2 _

@[simp]
lemma applyKeyPre_receiver (a : App) : (applyKeyPre a).receiver = a.receiver := by
  unfold applyKeyPre; split <;> rfl

@[simp]
lemma applyKeyPre_is_compressing (a : App) :
    (applyKeyPre a).is_compressing = a.is_compressing := by
  unfold applyKeyPre; split <;> rfl

@[simp]
lemma applyKeyPre_is_decompressing (a : App) :
    (applyKeyPre a).is_decompressing = a.is_decompressing := by
  unfold applyKeyPre; split <;> rfl

@[simp]
lemma applyKeyPre_exit (a : App) : (applyKeyPre a).exit = a.exit := by
  unfold applyKeyPre; split <;> rfl

@[simp]
lemma applyKeyPre_status_message (a : App) :
    (applyKeyPre a).status_message = a.status_message := by
  unfold applyKeyPre; split <;> rfl

@[simp]
lemma applyKeyPre_last_compression_result (a : App) :
    (applyKeyPre a).last_compression_result = a.last_compression_result := by
  unfold applyKeyPre; split <;> rfl

@[simp]
lemma applyKeyPre_compression_finished_at (a : App) :
    (applyKeyPre a).compression_finished_at = a.compression_finished_at := by
  unfold applyKeyPre; split <;> rfl

@[simp]
lemma applyKeyPre_compression_level (a : App) :
    (applyKeyPre a).compression_level = a.compression_level := by
  unfold applyKeyPre; split <;> rfl

lemma applyKeyPre_progress (a : App) :
    (applyKeyPre a).progress =
      if a.is_compressing = false ∧ 0 < a.progress then 0 else a.progress := by
  unfold applyKeyPre; split_ifs <;> rfl

lemma finishedUpdate_progress (a : App) (o c : Nat) (p : String) (now : Nat) :
    (finishedUpdate a o c p now).progress = 1 := by
  cases hd : a.is_decompressing <;> simp [finishedUpdate, hd]

/-- The running prefix totals of a chunk list, starting from `acc`:
the successive `bytes_processed` values of a clean copy loop. -/
def runningTotals (acc : Nat) : List Nat → List Nat
  | [] => []
  | c :: cs => (acc + c) :: runningTotals (acc + c) cs

lemma runningTotals_getLast :
    ∀ (cs : List Nat) (acc : Nat), cs ≠ [] →
      (runningTotals acc cs).getLast? = some (acc + cs.sum) := by
  intro cs
  induction cs with
  | nil => intro acc h; exact absurd rfl h
  | cons c cs ih =>
    intro acc _
    cases cs with
    | nil => simp [runningTotals]
    | cons c2 cs2 =>
      have h1 : runningTotals acc (c :: c2 :: cs2)
          = (acc + c) :: runningTotals (acc + c) (c2 :: cs2) := rfl
      have h2 : runningTotals (acc + c) (c2 :: cs2)
          = (acc + c + c2) :: runningTotals (acc + c + c2) cs2 := rfl
      rw [h1, h2, List.getLast?_cons_cons, ← h2, ih (acc + c) (by simp)]
      simp only [List.sum_cons, Option.some.injEq]
      omega

lemma compressLoop_progress_all (err : Nat → Option String) (total : Nat) :
    ∀ (cs : List Nat) (bp i : Nat),
      ∀ m ∈ (compressLoop err total cs bp i).1, m.isProgress = true := by
  intro cs
  induction cs with
  | nil => intro bp i m hm; simp [compressLoop] at hm
  | cons c cs ih =>
    intro bp i m hm
    rw [compressLoop] at hm
    cases herr : err i with
    | some e => rw [herr] at hm; simp at hm
    | none =>
      rw [herr] at hm
      by_cases hc : c = 0
      · simp [hc] at hm
      · simp only [hc, if_false, List.mem_cons] at hm
        rcases hm with rfl | hm
        · rfl
        · exact ih (bp + c) (i + 1) m hm

lemma compressLoop_chain (err : Nat → Option String) (total : Nat) :
    ∀ (cs : List Nat) (bp i : Nat),
      List.Chain' (· ≤ ·) (bp :: progressBytes (compressLoop err total cs bp i).1) := by
  intro cs
  induction cs with
  | nil => intro bp i; simp [compressLoop]
  | cons c cs ih =>
    intro bp i
    cases herr : err i with
    | some e => rw [compressLoop, herr]; simp
    | none =>
      by_cases hc : c = 0
      · rw [compressLoop, herr]; simp [hc]
      · rw [compressLoop, herr]
        simp only [hc, if_false, progressBytes_cons_progress]
        exact List.Chain'.cons (Nat.le_add_right bp c) (ih (bp + c) (i + 1))

lemma compressLoop_clean (err : Nat → Option String) (total : Nat)
    (herr : ∀ j, err j = none) :
    ∀ cs : List Nat, (∀ c ∈ cs, 0 < c) → ∀ bp i : Nat,
      compressLoop err total cs bp i =
        ((runningTotals bp cs).map fun s => CompressMessage.Progress s total,
         Except.ok (bp + cs.sum)) := by
  intro cs
  induction cs with
  | nil => intro _ bp i; simp [compressLoop, runningTotals]
  | cons c cs ih =>
    intro hpos bp i
    have hc : ¬ c = 0 := Nat.pos_iff_ne_zero.mp (hpos c (by simp))
    rw [compressLoop, herr i]
    simp only [hc, if_false, ih (fun x hx => hpos x (by simp [hx])) (bp + c) (i + 1)]
    simp only [runningTotals, List.map_cons, List.sum_cons]
    have hadd : bp + c + cs.sum = bp + (c + cs.sum) := by omega
    rw [hadd]

lemma decompressLoop_eq_compressLoop (err : Nat → Option String) (total : Nat) :
    ∀ (cs : List Nat) (bp i : Nat),
      decompressLoop err total cs bp i = compressLoop err total cs bp i := by
  intro cs
  induction cs with
  | nil => intro bp i; rfl
  | cons c cs ih =>
    intro bp i
    rw [decompressLoop, compressLoop]
    cases err i with
    | some e => rfl
    | none =>
      by_cases hc : c = 0
      · simp [hc]
      · simp [hc, ih (bp + c) (i + 1)]

/-! ### Claim C3 — message stream shape -/

/-- True on a successful `run` closure result. -/
def exceptOk : Except String (Nat × Nat × String) → Bool
  | Except.ok _ => true
  | Except.error _ => false

/-- A message stream is a possibly empty block of `Progress` messages
followed by exactly one terminal message, whose kind reflects whether
the `run` closure succeeded. -/
def streamShape (l : List CompressMessage) (ok : Bool) : Prop :=
  ∃ ps t, l = ps ++ [t] ∧ (∀ m ∈ ps, m.isProgress = true) ∧
    (if ok then ∃ o c p, t = CompressMessage.Finished o c p
     else ∃ e, t = CompressMessage.Error e)

lemma compressRunOutcome_progress_all (op : String) (env : CompressEnv) :
    ∀ m ∈ (compressRunOutcome op env).1, m.isProgress = true := by
  unfold compressRunOutcome
  cases env.openErr with
  | some e => simp
  | none =>
    cases env.encoderErr with
    | some e => simp
    | none =>
      simp only
      cases h2 : (compressLoop env.loopErr env.inputSize env.readChunks 0 0).2 with
      | error e => simpa using compressLoop_progress_all env.loopErr env.inputSize env.readChunks 0 0
      | ok v =>
        cases env.finishErr with
        | some e => simpa using compressLoop_progress_all env.loopErr env.inputSize env.readChunks 0 0
        | none => simpa using compressLoop_progress_all env.loopErr env.inputSize env.readChunks 0 0

lemma decompressRunOutcome_progress_all (op : String) (env : DecompressEnv) :
    ∀ m ∈ (decompressRunOutcome op env).1, m.isProgress = true := by
  unfold decompressRunOutcome
  cases env.openErr with
  | some e => simp
  | none =>
    simp only
    cases h2 : (decompressLoop env.loopErr env.compressedSize env.decodedChunks 0 0).2 with
    | error e =>
      simp only [decompressLoop_eq_compressLoop]
      simpa using compressLoop_progress_all env.loopErr env.compressedSize env.decodedChunks 0 0
    | ok v =>
      simp only [decompressLoop_eq_compressLoop]
      simpa using compressLoop_progress_all env.loopErr env.compressedSize env.decodedChunks 0 0

lemma streamShape_of_append (msgs : List CompressMessage)
    (r : Except String (Nat × Nat × String))
    (hp : ∀ m ∈ msgs, m.isProgress = true) :
    streamShape (msgs ++ [terminalFor r]) (exceptOk r) := by
  refine ⟨msgs, terminalFor r, rfl, hp, ?_⟩
  cases r with
  | ok v =>
    obtain ⟨o, c, p⟩ := v
    simp [exceptOk, terminalFor]
  | error e => simp [exceptOk, terminalFor]

/-- Claim C3: for every compression and every decompression job, the
message stream sent on the channel is a possibly empty block of
`Progress` messages followed by exactly one terminal message — `Finished`
when the `run` closure succeeded, `Error` when it failed. -/
theorem c3_message_stream_shape (ipC opC ipD opD : String)
    (cenv : CompressEnv) (denv : DecompressEnv) :
    streamShape (startCompression ipC opC cenv).messages
      (exceptOk (compressRunOutcome opC cenv).2) ∧
    streamShape (startDecompression ipD opD denv)
      (exceptOk (decompressRunOutcome opD denv).2) :=
  ⟨streamShape_of_append _ _ (compressRunOutcome_progress_all opC cenv),
   streamShape_of_append _ _ (decompressRunOutcome_progress_all opD denv)⟩

/-! ### Claim C4 — progress monotonicity and final value

The monotonicity half of C4 holds for both directions.  The "final
`Progress` equals the input file's total size" half holds for successful
compression runs, but fails for decompression, whose final
`bytes_processed` is the total number of decompressed bytes produced,
not the (compressed) input file size. -/

lemma compressRunOutcome_messages (op : String) (env : CompressEnv)
    (hopen : env.openErr = none) (henc : env.encoderErr = none)
    (herr : ∀ j, env.loopErr j = none) (hfin : env.finishErr = none)
    (hpos : ∀ c ∈ env.readChunks, 0 < c) :
    compressRunOutcome op env =
      ((runningTotals 0 env.readChunks).map
        fun s => CompressMessage.Progress s env.inputSize,
       Except.ok (env.inputSize, env.compressedSize, op)) := by
  unfold compressRunOutcome
  rw [hopen, henc,
    compressLoop_clean env.loopErr env.inputSize herr env.readChunks hpos 0 0]
  simp [hfin]

lemma progressBytes_map_progress (total : Nat) (l : List Nat) :
    progressBytes (l.map fun s => CompressMessage.Progress s total) = l := by
  induction l with
  | nil => rfl
  | cons x xs ih => simp [ih]

/-- Claim C4 as amended: `bytes_processed` is non-decreasing across the
`Progress` messages of every job (both directions, also on failing
runs); on a clean compression run the final `Progress` carries exactly
the input file's size, while on a clean decompression run it carries the
total number of decompressed bytes produced. -/
theorem c4_progress_monotone_amended :
    (∀ (ip op : String) (cenv : CompressEnv),
      List.Chain' (· ≤ ·) (progressBytes (startCompression ip op cenv).messages)) ∧
    (∀ (ip op : String) (denv : DecompressEnv),
      List.Chain' (· ≤ ·) (progressBytes (startDecompression ip op denv))) ∧
    (∀ (ip op : String) (cenv : CompressEnv),
      cenv.openErr = none → cenv.encoderErr = none →
      (∀ j, cenv.loopErr j = none) → cenv.finishErr = none →
      (∀ c ∈ cenv.readChunks, 0 < c) → cenv.readChunks.sum = cenv.inputSize →
      cenv.readChunks ≠ [] →
      (progressBytes (startCompression ip op cenv).messages).getLast?
        = some cenv.inputSize) ∧
    (∀ (ip op : String) (denv : DecompressEnv),
      denv.openErr = none → (∀ j, denv.loopErr j = none) →
      (∀ c ∈ denv.decodedChunks, 0 < c) → denv.decodedChunks ≠ [] →
      (progressBytes (startDecompression ip op denv)).getLast?
        = some denv.decodedChunks.sum) := by
  have hterm : ∀ (l : List CompressMessage) (r : Except String (Nat × Nat × String)),
      progressBytes (l ++ [terminalFor r]) = progressBytes l := by
    intro l r
    cases r with
    | ok v => obtain ⟨o, c, p⟩ := v; simp [terminalFor]
    | error e => simp [terminalFor]
  refine ⟨?_, ?_, ?_, ?_⟩
  · intro ip op cenv
    unfold startCompression
    rw [hterm]
    unfold compressRunOutcome
    cases cenv.openErr with
    | some e => simp
    | none =>
      cases cenv.encoderErr with
      | some e => simp
      | none =>
        simp only
        have := compressLoop_chain cenv.loopErr cenv.inputSize cenv.readChunks 0 0
        cases h2 : (compressLoop cenv.loopErr cenv.inputSize cenv.readChunks 0 0).2 with
        | error e => simpa using this.tail
        | ok v =>
          cases cenv.finishErr with
          | some e => simpa using this.tail
          | none => simpa using this.tail
  · intro ip op denv
    unfold startDecompression
    rw [hterm]
    unfold decompressRunOutcome
    cases denv.openErr with
    | some e => simp
    | none =>
      simp only [decompressLoop_eq_compressLoop]
      have := compressLoop_chain denv.loopErr denv.compressedSize denv.decodedChunks 0 0
      cases h2 : (compressLoop denv.loopErr denv.compressedSize denv.decodedChunks 0 0).2 with
      | error e => simpa using this.tail
      | ok v => simpa using this.tail
  · intro ip op cenv hopen henc herr hfin hpos hsum hne
    unfold startCompression
    rw [hterm, compressRunOutcome_messages op cenv hopen henc herr hfin hpos]
    simp only [progressBytes_map_progress]
    rw [runningTotals_getLast cenv.readChunks 0 hne, Nat.zero_add, hsum]
  · intro ip op denv hopen herr hpos hne
    unfold startDecompression
    rw [hterm]
    unfold decompressRunOutcome
    rw [hopen]
    simp only [decompressLoop_eq_compressLoop,
      compressLoop_clean denv.loopErr denv.compressedSize herr denv.decodedChunks hpos 0 0]
    simp only [progressBytes_map_progress]
    rw [runningTotals_getLast denv.decodedChunks 0 hne, Nat.zero_add]

/-- A decompression run of a 5-byte compressed file that inflates to 10
bytes in one chunk. -/
def envC4 : DecompressEnv :=
  { compressedSize := 5
    decodedChunks := [10]
    openErr := none
    loopErr := fun _ => none }

/-- Counterexample to C4 as stated: on this decompression job the last
`Progress` before the terminal message carries 10, but the input file's
total size is 5. -/
theorem c4_counterexample :
    (progressBytes (startDecompression "a.zst" "a" envC4)).getLast? = some 10 ∧
    envC4.compressedSize = 5 ∧ ((10 : Nat) = 5 → False) := by
  decide

/-- A clean two-chunk compression run of a 7-byte file. -/
def envC4w : CompressEnv :=
  { inputSize := 7
    readChunks := [4, 3]
    openErr := none
    encoderErr := none
    loopErr := fun _ => none
    finishErr := none
    compressedSize := 5 }

/-- Witness for the amended C4: a clean concrete compression run whose
final `Progress` equals the input size. -/
theorem c4_progress_monotone_amended_witness :
    (progressBytes (startCompression "b.txt" "b.txt.zst" envC4w).messages).getLast?
      = some envC4w.inputSize :=
  c4_progress_monotone_amended.2.2.1 "b.txt" "b.txt.zst" envC4w rfl rfl
    (fun _ => rfl) rfl (by decide) rfl (by decide)

/-! ### Claim C1 — what decompression progress counts

The decompression loop reads from the *decoder* (src/compression.rs line
74), so `bytes_processed` accumulates decompressed bytes produced, while
`total_bytes` is the compressed file size (line 82).  The ratio can
therefore exceed 1.  The characterization below covers failing runs too:
whatever the failure point, the emitted `Progress` messages carry the
compressed size as `total_bytes` and a prefix of the running totals of
the decoder's output chunks as `bytes_processed`. -/

lemma terminalFor_ne_progress (r : Except String (Nat × Nat × String))
    (bp tb : Nat) : terminalFor r ≠ CompressMessage.Progress bp tb := by
  cases r with
  | ok v => obtain ⟨o, c, p⟩ := v; simp [terminalFor]
  | error e => simp [terminalFor]

lemma progressBytes_terminalFor (r : Except String (Nat × Nat × String)) :
    progressBytes [terminalFor r] = [] := by
  cases r with
  | ok v => obtain ⟨o, c, p⟩ := v; rfl
  | error e => rfl

lemma compressLoop_progress_total (err : Nat → Option String) (total : Nat) :
    ∀ (cs : List Nat) (bp i : Nat), ∀ bp2 tb,
      CompressMessage.Progress bp2 tb ∈ (compressLoop err total cs bp i).1 →
      tb = total := by
  intro cs
  induction cs with
  | nil => intro bp i bp2 tb hm; simp [compressLoop] at hm
  | cons c cs ih =>
    intro bp i bp2 tb hm
    rw [compressLoop] at hm
    cases herr : err i with
    | some e => rw [herr] at hm; simp at hm
    | none =>
      rw [herr] at hm
      by_cases hc : c = 0
      · simp [hc] at hm
      · simp only [hc, if_false, List.mem_cons] at hm
        rcases hm with heq | hm
        · injection heq with h1 h2
          try exact h2
        · exact ih (bp + c) (i + 1) bp2 tb hm

lemma compressLoop_progress_take (err : Nat → Option String) (total : Nat) :
    ∀ (cs : List Nat) (bp i : Nat), ∃ k,
      progressBytes (compressLoop err total cs bp i).1
        = (runningTotals bp (cs.takeWhile fun c => c != 0)).take k := by
  intro cs
  induction cs with
  | nil => intro bp i; exact ⟨0, by simp [compressLoop]⟩
  | cons c cs ih =>
    intro bp i
    cases herr : err i with
    | some e => exact ⟨0, by rw [compressLoop, herr]; simp⟩
    | none =>
      by_cases hc : c = 0
      · exact ⟨0, by rw [compressLoop, herr]; simp [hc]⟩
      · obtain ⟨k, hk⟩ := ih (bp + c) (i + 1)
        refine ⟨k + 1, ?_⟩
        rw [compressLoop, herr]
        simp only [hc, if_false, progressBytes_cons_progress]
        have hcb : (c != 0) = true := by simpa using hc
        rw [List.takeWhile_cons, hcb]
        simp only [if_true, runningTotals, List.take_succ_cons]
        rw [hk]

lemma decompressRunOutcome_fst (op : String) (env : DecompressEnv) :
    (decompressRunOutcome op env).1 = [] ∨
    (decompressRunOutcome op env).1
      = (decompressLoop env.loopErr env.compressedSize env.decodedChunks 0 0).1 := by
  unfold decompressRunOutcome
  cases env.openErr with
  | some e => exact Or.inl rfl
  | none =>
    simp only
    cases (decompressLoop env.loopErr env.compressedSize env.decodedChunks 0 0).2 with
    | error e => exact Or.inr rfl
    | ok v => exact Or.inr rfl

/-- A decompression run of a 5-byte compressed file inflating to 10
bytes. -/
def envC1 : DecompressEnv :=
  { compressedSize := 5
    decodedChunks := [10]
    openErr := none
    loopErr := fun _ => none }

/-- Counterexample to C1 as stated: this decompression job emits a
`Progress` message with `bytes_processed = 10 > 5 = total_bytes`, so
`bytes_processed` does not stay below the compressed file size. -/
theorem c1_counterexample :
    startDecompression "in.zst" "out" envC1 =
      [CompressMessage.Progress 10 5, CompressMessage.Finished 5 10 "out"] ∧
    ((10 : Nat) ≤ 5 → False) := by
  decide

/-- Claim C1 as amended: for every decompression job (clean or failing
at any point), each `Progress` message carries the compressed file size
as `total_bytes` and a cumulative count of decompressed bytes produced
so far as `bytes_processed` — the successive values form a prefix of the
running totals of the decoder's output chunks; on a clean run the stream
is exactly that running-totals list followed by `Finished` with the
compressed size and the total decompressed byte count. -/
theorem c1_decompression_progress_amended (ip op : String) (env : DecompressEnv) :
    (∀ bp tb, CompressMessage.Progress bp tb ∈ startDecompression ip op env →
      tb = env.compressedSize) ∧
    (∃ k, progressBytes (startDecompression ip op env)
      = (runningTotals 0 (env.decodedChunks.takeWhile fun c => c != 0)).take k) ∧
    (env.openErr = none → (∀ j, env.loopErr j = none) →
      (∀ c ∈ env.decodedChunks, 0 < c) →
      startDecompression ip op env =
        ((runningTotals 0 env.decodedChunks).map
          fun s => CompressMessage.Progress s env.compressedSize)
        ++ [CompressMessage.Finished env.compressedSize env.decodedChunks.sum op]) := by
  have hpb : progressBytes (startDecompression ip op env)
      = progressBytes (decompressRunOutcome op env).1 := by
    simp only [startDecompression]
    rw [progressBytes_append, progressBytes_terminalFor, List.append_nil]
  refine ⟨?_, ?_, ?_⟩
  · intro bp tb hm
    simp only [startDecompression] at hm
    rcases List.mem_append.mp hm with h1 | h2
    · rcases decompressRunOutcome_fst op env with hf | hf
      · rw [hf] at h1; simp at h1
      · rw [hf, decompressLoop_eq_compressLoop] at h1
        exact compressLoop_progress_total env.loopErr env.compressedSize
          env.decodedChunks 0 0 bp tb h1
    · simp only [List.mem_singleton] at h2
      exact absurd h2.symm (terminalFor_ne_progress _ bp tb)
  · rcases decompressRunOutcome_fst op env with hf | hf
    · exact ⟨0, by rw [hpb, hf]; simp⟩
    · rw [hpb, hf, decompressLoop_eq_compressLoop]
      exact compressLoop_progress_take env.loopErr env.compressedSize
        env.decodedChunks 0 0
  · intro hopen herr hpos
    unfold startDecompression decompressRunOutcome
    rw [hopen]
    simp only [decompressLoop_eq_compressLoop,
      compressLoop_clean env.loopErr env.compressedSize herr env.decodedChunks hpos 0 0]
    simp [terminalFor]

/-- A clean decompression run: 5 compressed bytes, decoded chunks of 3
and 4 bytes. -/
def envC1w : DecompressEnv :=
  { compressedSize := 5
    decodedChunks := [3, 4]
    openErr := none
    loopErr := fun _ => none }

/-- Witness for the amended C1: the clean-run conjunct evaluated at a
concrete run. -/
theorem c1_decompression_progress_amended_witness :
    startDecompression "d.zst" "d" envC1w =
      ((runningTotals 0 envC1w.decodedChunks).map
        fun s => CompressMessage.Progress s envC1w.compressedSize)
      ++ [CompressMessage.Finished envC1w.compressedSize envC1w.decodedChunks.sum "d"] :=
  (c1_decompression_progress_amended "d.zst" "d" envC1w).2.2 rfl (fun _ => rfl)
    (by decide)

/-! ### Claim C7 — level saturation -/

/-- Claim C7: `increase` and `decrease` stay inside
`{Fast, Normal, Best}`, `Fast.decrease = Fast`, `Best.increase = Best`,
and `Normal.increase.increase = Best`. -/
theorem c7_level_ordering :
    (∀ l : CompressionLevel,
      l.increase ∈ [CompressionLevel.Fast, CompressionLevel.Normal, CompressionLevel.Best] ∧
      l.decrease ∈ [CompressionLevel.Fast, CompressionLevel.Normal, CompressionLevel.Best]) ∧
    CompressionLevel.Fast.decrease = CompressionLevel.Fast ∧
    CompressionLevel.Best.increase = CompressionLevel.Best ∧
    CompressionLevel.Normal.increase.increase = CompressionLevel.Best := by
  refine ⟨fun l => ?_, by decide, by decide, by decide⟩
  cases l <;> exact ⟨by decide, by decide⟩

/-! ### Claim C10 — zstd level mapping -/

/-- Claim C10: the zstd integer level is strictly increasing along
`Fast < Normal < Best`, with values 1, 3 and 19. -/
theorem c10_zstd_level_strict_mono :
    CompressionLevel.Fast.zstdLevel = 1 ∧
    CompressionLevel.Normal.zstdLevel = 3 ∧
    CompressionLevel.Best.zstdLevel = 19 ∧
    CompressionLevel.Fast.zstdLevel < CompressionLevel.Normal.zstdLevel ∧
    CompressionLevel.Normal.zstdLevel < CompressionLevel.Best.zstdLevel := by
  decide

/-! ### Claim C2 — the encoder level is a constant

`start_compression` constructs the encoder as
`zstd::stream::Encoder::new(output_file, 3)` (src/compression.rs line
17); it receives no `CompressionLevel`, although `CompressionLevel` is
documented as "the zstd integer level to pass to the encoder" and the
'o' key handler (src/app.rs line 265) even passes the current level as a
fourth argument that the three-parameter function cannot accept. -/

/-- Claim C2 (as the code behaves): whenever a compression run reaches
the encoder construction, the encoder level is the constant 3, which is
not `zstd_level(Best) = 19`. -/
theorem c2_encoder_level_is_constant (ip op : String) (env : CompressEnv)
    (h : env.openErr = none) :
    (startCompression ip op env).encoderLevel = some 3 ∧
    some 3 ≠ some CompressionLevel.Best.zstdLevel := by
  refine ⟨?_, by decide⟩
  simp [startCompression, h]

/-- Environment of a clean 200000-byte compression run at level Best. -/
def envC2w : CompressEnv :=
  { inputSize := 200000
    readChunks := [65536, 65536, 65536, 3392]
    openErr := none
    encoderErr := none
    loopErr := fun _ => none
    finishErr := none
    compressedSize := 120000 }

/-- Witness for C2: a concrete run where the encoder level used is 3,
not the selected level's `zstd_level`. -/
theorem c2_encoder_level_is_constant_witness :
    (startCompression "file.bin" "file.bin.zst" envC2w).encoderLevel = some 3 ∧
    some 3 ≠ some CompressionLevel.Best.zstdLevel :=
  c2_encoder_level_is_constant "file.bin" "file.bin.zst" envC2w rfl

/-! ### Claim C6 — zero-division guard -/

/-- Claim C6: processing a `Progress` message with `total_bytes = 0`
leaves the controller state (in particular the progress fraction)
unchanged; the guard `total_bytes > 0` avoids the division. -/
theorem c6_zero_total_guard (a : App) (bp now : Nat) :
    checkCompressionProgress a [CompressMessage.Progress bp 0] now = a := by
  unfold checkCompressionProgress
  cases h : a.receiver with
  | none => rfl
  | some u => simp [drainLoop]

/-! ### Claim C8 — error transition -/

/-- Claim C8: processing an `Error` message resets progress to 0, clears
both running flags, sets the status text to the error message, drops the
receiver, and changes nothing else (no dismiss timer is set). -/
theorem c8_error_transition (a : App) (e : String) (now : Nat)
    (h : a.receiver = some ()) :
    (checkCompressionProgress a [CompressMessage.Error e] now).progress = 0 ∧
    (checkCompressionProgress a [CompressMessage.Error e] now).is_compressing = false ∧
    (checkCompressionProgress a [CompressMessage.Error e] now).is_decompressing = false ∧
    (checkCompressionProgress a [CompressMessage.Error e] now).status_message
      = " Error: " ++ e ∧
    (checkCompressionProgress a [CompressMessage.Error e] now).receiver = none ∧
    (checkCompressionProgress a [CompressMessage.Error e] now).compression_finished_at
      = a.compression_finished_at ∧
    (checkCompressionProgress a [CompressMessage.Error e] now).exit = a.exit ∧
    (checkCompressionProgress a [CompressMessage.Error e] now).last_compression_result
      = a.last_compression_result ∧
    (checkCompressionProgress a [CompressMessage.Error e] now).compression_level
      = a.compression_level := by
  simp [checkCompressionProgress, h, drainLoop]

/-- A controller state holding a live channel receiver. -/
def appWithReceiver : App :=
  { appDefault with receiver := some (), is_compressing := true }

/-- Witness for C8 at a concrete running state and error text. -/
theorem c8_error_transition_witness :
    (checkCompressionProgress appWithReceiver [CompressMessage.Error "disk full"] 7).progress = 0 ∧
    (checkCompressionProgress appWithReceiver [CompressMessage.Error "disk full"] 7).is_compressing = false ∧
    (checkCompressionProgress appWithReceiver [CompressMessage.Error "disk full"] 7).is_decompressing = false ∧
    (checkCompressionProgress appWithReceiver [CompressMessage.Error "disk full"] 7).status_message
      = " Error: " ++ "disk full" ∧
    (checkCompressionProgress appWithReceiver [CompressMessage.Error "disk full"] 7).receiver = none ∧
    (checkCompressionProgress appWithReceiver [CompressMessage.Error "disk full"] 7).compression_finished_at
      = appWithReceiver.compression_finished_at ∧
    (checkCompressionProgress appWithReceiver [CompressMessage.Error "disk full"] 7).exit
      = appWithReceiver.exit ∧
    (checkCompressionProgress appWithReceiver [CompressMessage.Error "disk full"] 7).last_compression_result
      = appWithReceiver.last_compression_result ∧
    (checkCompressionProgress appWithReceiver [CompressMessage.Error "disk full"] 7).compression_level
      = appWithReceiver.compression_level :=
  c8_error_transition appWithReceiver "disk full" 7 rfl

/-! ### Claim C5 — the progress fraction and the unit interval

During decompression the engine sends `Progress` messages whose
`bytes_processed` (decompressed bytes produced) exceeds `total_bytes`
(the compressed size), and the controller stores
`bytes_processed / total_bytes` without clamping, so `App.progress`
can exceed 1.  (Only the renderer clamps, src/app.rs lines 337 and 345.)
The fraction is bounded by 1 exactly when every processed `Progress`
message satisfies `bytes_processed ≤ total_bytes`. -/

/-- The progress fraction lies in the unit interval. -/
def ProgressInUnit (a : App) : Prop := 0 ≤ a.progress ∧ a.progress ≤ 1

lemma applyKeyPre_unit (a : App) (h : ProgressInUnit a) :
    ProgressInUnit (applyKeyPre a) := by
  unfold applyKeyPre
  split
  · exact ⟨le_refl 0, by norm_num⟩
  · exact h

lemma handleKeyEvent_unit (a : App) (k : KeyIn) (env : PickerEnv)
    (h : ProgressInUnit a) : ProgressInUnit (handleKeyEvent a k env).1 := by
  have h' := applyKeyPre_unit a h
  have h0 : (0 : Rat) ≤ 0 ∧ (0 : Rat) ≤ 1 := ⟨le_refl 0, by norm_num⟩
  cases k with
  | q => exact h'
  | up =>
    simp only [handleKeyEvent]
    split
    · exact h'
    · exact h'
  | down =>
    simp only [handleKeyEvent]
    split
    · exact h'
    · exact h'
  | d =>
    simp only [handleKeyEvent]
    cases env.picked with
    | some input => exact h0
    | none => exact h'
  | s =>
    simp only [handleKeyEvent]
    cases env.picked with
    | some input => exact h0
    | none => exact h'
  | o =>
    simp only [handleKeyEvent]
    cases env.picked with
    | some input => exact h0
    | none => exact h'
  | other => exact h'

lemma drainLoop_unit (now : Nat) :
    ∀ (msgs : List CompressMessage) (a : App), ProgressInUnit a →
      (∀ bp tb, CompressMessage.Progress bp tb ∈ msgs → bp ≤ tb) →
      ProgressInUnit (drainLoop a msgs now) := by
  intro msgs
  induction msgs with
  | nil => intro a h _; exact h
  | cons m rest ih =>
    intro a h hb
    cases m with
    | Progress bp tb =>
      rw [drainLoop]
      refine ih _ ?_ fun bp2 tb2 hm => hb bp2 tb2 (by simp [hm])
      split
      · next htb =>
        constructor
        · exact div_nonneg (Nat.cast_nonneg bp) (Nat.cast_nonneg tb)
        · rw [div_le_one (by exact_mod_cast htb)]
          exact_mod_cast hb bp tb (by simp)
      · exact h
    | Finished o c p =>
      rw [drainLoop]
      constructor <;> simp [finishedUpdate_progress]
    | Error e =>
      rw [drainLoop]
      exact ⟨le_refl 0, by norm_num⟩

lemma checkCompressionProgress_unit (a : App) (msgs : List CompressMessage)
    (now : Nat) (h : ProgressInUnit a)
    (hb : ∀ bp tb, CompressMessage.Progress bp tb ∈ msgs → bp ≤ tb) :
    ProgressInUnit (checkCompressionProgress a msgs now) := by
  unfold checkCompressionProgress
  cases a.receiver with
  | none => exact h
  | some u => exact drainLoop_unit now msgs a h hb

lemma handleEvents_unit (a : App) (t : TickInput) (h : ProgressInUnit a)
    (hb : ∀ bp tb, CompressMessage.Progress bp tb ∈ t.msgs → bp ≤ tb) :
    ProgressInUnit (handleEvents a t).1 := by
  unfold handleEvents
  have h1 : ProgressInUnit (match t.key with
      | some (k, env) => handleKeyEvent a k env
      | none => (a, [])).1 := by
    cases t.key with
    | none => exact h
    | some ke => exact handleKeyEvent_unit a ke.1 ke.2 h
  have h2 := checkCompressionProgress_unit _ t.msgs t.now h1 hb
  cases hfin : (checkCompressionProgress (match t.key with
      | some (k, env) => handleKeyEvent a k env
      | none => (a, [])).1 t.msgs t.now).compression_finished_at with
  | none => simpa [hfin] using h2
  | some f =>
    simp only [hfin]
    split
    · exact h2
    · exact h2

lemma runTicks_unit :
    ∀ (ts : List TickInput) (a : App), ProgressInUnit a →
      (∀ t ∈ ts, ∀ bp tb, CompressMessage.Progress bp tb ∈ t.msgs → bp ≤ tb) →
      ProgressInUnit (runTicks a ts) := by
  intro ts
  induction ts with
  | nil => intro a h _; exact h
  | cons t ts ih =>
    intro a h hb
    rw [runTicks]
    exact ih _ (handleEvents_unit a t h fun bp tb hm => hb t (by simp) bp tb hm)
      fun t2 ht2 => hb t2 (by simp [ht2])

lemma applyKeyPre_nonneg (a : App) (h : 0 ≤ a.progress) :
    0 ≤ (applyKeyPre a).progress := by
  unfold applyKeyPre
  split
  · exact le_refl 0
  · exact h

lemma handleKeyEvent_nonneg (a : App) (k : KeyIn) (env : PickerEnv)
    (h : 0 ≤ a.progress) : 0 ≤ (handleKeyEvent a k env).1.progress := by
  have h' := applyKeyPre_nonneg a h
  have h0 : (0 : Rat) ≤ 0 := le_refl 0
  cases k with
  | q => exact h'
  | up =>
    simp only [handleKeyEvent]
    split
    · exact h'
    · exact h'
  | down =>
    simp only [handleKeyEvent]
    split
    · exact h'
    · exact h'
  | d =>
    simp only [handleKeyEvent]
    cases env.picked with
    | some input => exact h0
    | none => exact h'
  | s =>
    simp only [handleKeyEvent]
    cases env.picked with
    | some input => exact h0
    | none => exact h'
  | o =>
    simp only [handleKeyEvent]
    cases env.picked with
    | some input => exact h0
    | none => exact h'
  | other => exact h'

lemma drainLoop_nonneg (now : Nat) :
    ∀ (msgs : List CompressMessage) (a : App), 0 ≤ a.progress →
      0 ≤ (drainLoop a msgs now).progress := by
  intro msgs
  induction msgs with
  | nil => intro a h; exact h
  | cons m rest ih =>
    intro a h
    cases m with
    | Progress bp tb =>
      rw [drainLoop]
      refine ih _ ?_
      split
      · exact div_nonneg (Nat.cast_nonneg bp) (Nat.cast_nonneg tb)
      · exact h
    | Finished o c p =>
      rw [drainLoop, finishedUpdate_progress]
      norm_num
    | Error e =>
      rw [drainLoop]

lemma checkCompressionProgress_nonneg (a : App) (msgs : List CompressMessage)
    (now : Nat) (h : 0 ≤ a.progress) :
    0 ≤ (checkCompressionProgress a msgs now).progress := by
  unfold checkCompressionProgress
  cases a.receiver with
  | none => exact h
  | some u => exact drainLoop_nonneg now msgs a h

lemma handleEvents_nonneg (a : App) (t : TickInput) (h : 0 ≤ a.progress) :
    0 ≤ (handleEvents a t).1.progress := by
  unfold handleEvents
  have h1 : 0 ≤ (match t.key with
      | some (k, env) => handleKeyEvent a k env
      | none => (a, [])).1.progress := by
    cases t.key with
    | none => exact h
    | some ke => exact handleKeyEvent_nonneg a ke.1 ke.2 h
  have h2 := checkCompressionProgress_nonneg _ t.msgs t.now h1
  cases hfin : (checkCompressionProgress (match t.key with
      | some (k, env) => handleKeyEvent a k env
      | none => (a, [])).1 t.msgs t.now).compression_finished_at with
  | none => simpa [hfin] using h2
  | some f =>
    simp only [hfin]
    split
    · exact h2
    · exact h2

lemma runTicks_nonneg :
    ∀ (ts : List TickInput) (a : App), 0 ≤ a.progress →
      0 ≤ (runTicks a ts).progress := by
  intro ts
  induction ts with
  | nil => intro a h; exact h
  | cons t ts ih =>
    intro a h
    rw [runTicks]
    exact ih _ (handleEvents_nonneg a t h)

/-- The compressed input file picked in the C5 counterexample trace. -/
def pathC5 : FreyaPath := { stem := "report", ext := some "zst" }

/-- A run of the controller: the user starts a decompression, then one
engine `Progress` message (10 decompressed bytes produced out of a
5-byte compressed file) is drained. -/
def traceC5 : List TickInput :=
  [ { key := some (KeyIn.d, { picked := some pathC5, savePicked := none })
      msgs := []
      now := 0 },
    { key := none
      msgs := [CompressMessage.Progress 10 5]
      now := 50 } ]

/-- Counterexample to C5 as stated: after this realizable event
sequence, starting from the default state, `App.progress = 2 > 1`. -/
theorem c5_counterexample :
    (runTicks appDefault traceC5).progress = 2 ∧
    ¬ (runTicks appDefault traceC5).progress ≤ 1 := by
  norm_num [runTicks, traceC5, handleEvents, handleKeyEvent, applyKeyPre,
    checkCompressionProgress, drainLoop, appDefault, pathC5]

/-- Claim C5 as amended: starting from the default state, after any
sequence of key events and drained channel messages, `0 ≤ App.progress`
holds unconditionally, and `App.progress ≤ 1` holds provided every
`Progress` message processed satisfies `bytes_processed ≤ total_bytes`
(true for compression, where `total_bytes` is the input size, but
violated by decompression). -/
theorem c5_progress_unit_amended (ts : List TickInput) :
    0 ≤ (runTicks appDefault ts).progress ∧
    ((∀ t ∈ ts, ∀ bp tb, CompressMessage.Progress bp tb ∈ t.msgs → bp ≤ tb) →
      (runTicks appDefault ts).progress ≤ 1) :=
  ⟨runTicks_nonneg ts appDefault (by simp [appDefault]),
   fun h => (runTicks_unit ts appDefault (by constructor <;> simp [appDefault]) h).2⟩

/-- The file picked in the C5 witness trace. -/
def pathC5w : FreyaPath := { stem := "notes", ext := some "txt" }

/-- A run of the controller: the user starts a compression, then one
engine `Progress` message (3 of 10 input bytes consumed) is drained. -/
def traceC5w : List TickInput :=
  [ { key := some (KeyIn.o, { picked := some pathC5w, savePicked := none })
      msgs := [CompressMessage.Progress 3 10]
      now := 0 } ]

/-- Witness for the amended C5 on a concrete compression trace. -/
theorem c5_progress_unit_amended_witness :
    0 ≤ (runTicks appDefault traceC5w).progress ∧
    (runTicks appDefault traceC5w).progress ≤ 1 :=
  ⟨(c5_progress_unit_amended traceC5w).1,
   (c5_progress_unit_amended traceC5w).2 (by
      intro t ht bp tb hm
      simp only [traceC5w, List.mem_singleton] at ht
      subst ht
      simp only [List.mem_singleton] at hm
      cases hm
      exact by norm_num)⟩

/-! ### Claim C9 — cancelling the file picker

Cancelling the picker starts no job, creates no channel and sets no
running flag, but the claim's "the only state change is setting an
informational status text" fails twice on the code: the 'd'
(decompress) branch has no else arm, so no status text is set at all,
and every key press first clears a leftover progress fraction
(src/app.rs lines 169–171). -/

/-- Claim C9 as amended: when the picker returns no file, no job is
started, no channel is created, the running flags and all other fields
are untouched, the status text is set to "Not Compressing " by the 's'
and 'o' branches and left unchanged by the 'd' branch — and, as on
every key press, a leftover progress fraction is cleared first. -/
theorem c9_cancel_amended (a : App) (env : PickerEnv) (h : env.picked = none) :
    (∀ k ∈ [KeyIn.d, KeyIn.s, KeyIn.o],
      (handleKeyEvent a k env).2 = [] ∧
      (handleKeyEvent a k env).1.receiver = a.receiver ∧
      (handleKeyEvent a k env).1.is_compressing = a.is_compressing ∧
      (handleKeyEvent a k env).1.is_decompressing = a.is_decompressing ∧
      (handleKeyEvent a k env).1.exit = a.exit ∧
      (handleKeyEvent a k env).1.compression_level = a.compression_level ∧
      (handleKeyEvent a k env).1.compression_finished_at = a.compression_finished_at ∧
      (handleKeyEvent a k env).1.last_compression_result = a.last_compression_result ∧
      (handleKeyEvent a k env).1.progress =
        (if a.is_compressing = false ∧ 0 < a.progress then 0 else a.progress)) ∧
    (handleKeyEvent a KeyIn.s env).1.status_message = "Not Compressing " ∧
    (handleKeyEvent a KeyIn.o env).1.status_message = "Not Compressing " ∧
    (handleKeyEvent a KeyIn.d env).1.status_message = a.status_message := by
  refine ⟨?_, ?_, ?_, ?_⟩
  · intro k hk
    have hcases : k = KeyIn.d ∨ k = KeyIn.s ∨ k = KeyIn.o := by simpa using hk
    rcases hcases with rfl | rfl | rfl <;>
      simp [handleKeyEvent, h, applyKeyPre_progress]
  · simp [handleKeyEvent, h]
  · simp [handleKeyEvent, h]
  · simp [handleKeyEvent, h]

/-- A controller state just after a job finished: full progress bar, no
job running. -/
def appShowingResult : App :=
  { appDefault with progress := 1, compression_finished_at := some 0 }

/-- Both dialogs cancelled. -/
def cancelEnv : PickerEnv := { picked := none, savePicked := none }

/-- Counterexample to C9 as stated: cancelling the decompress picker
from a post-result state changes `progress` (1 to 0) while leaving the
status text untouched, so the state change is not "only setting an
informational status text". -/
theorem c9_counterexample :
    (handleKeyEvent appShowingResult KeyIn.d cancelEnv).1.progress = 0 ∧
    appShowingResult.progress = 1 ∧
    (handleKeyEvent appShowingResult KeyIn.d cancelEnv).1.status_message
      = appShowingResult.status_message ∧
    ((0 : Rat) = 1 → False) := by
  decide

/-- Witness for the amended C9 at the same concrete state. -/
theorem c9_cancel_amended_witness :
    ((handleKeyEvent appShowingResult KeyIn.s cancelEnv).2 = [] ∧
      (handleKeyEvent appShowingResult KeyIn.s cancelEnv).1.receiver
        = appShowingResult.receiver) ∧
    (handleKeyEvent appShowingResult KeyIn.s cancelEnv).1.status_message
      = "Not Compressing " ∧
    (handleKeyEvent appShowingResult KeyIn.d cancelEnv).1.status_message
      = appShowingResult.status_message :=
  by
    have h := c9_cancel_amended appShowingResult cancelEnv rfl
    exact ⟨⟨(h.1 KeyIn.s (by simp)).1, (h.1 KeyIn.s (by simp)).2.1⟩,
      h.2.1, h.2.2.2⟩

end Freya
